import Mathlib

/-!
# Verification of the loc_system localization pipeline

Shallow embedding of the core of the `loc_system` repository
(`src/modules/matcher.py`, `src/modules/map_builder.py`,
`src/modules/pose_estimator.py`, `src/modules/map_loader.py`,
`src/modules/localiser.py`, `src/split_train_test.py`) together with
theorems settling the specification claims.

Modelling conventions:
* Descriptor vectors are lists of rationals; 2D points are pairs of
  rationals; 3D vectors are `Fin 3 → ℚ`.
* Descriptor distances are represented by their *squares* (`sqDist`),
  so that everything stays inside `ℚ` and is executable.  Nearest-neighbour
  ordering is unchanged by squaring, and the Lowe ratio test
  `dist m < r * dist n` on true distances corresponds to
  `sqDist m < r^2 * sqDist n`; the equivalence with the true Euclidean
  test is proved (for `0 ≤ r`) rather than assumed.
* External collaborators (OpenCV's RANSAC PnP solver and Rodrigues
  conversion, the SIFT extractor) are parameters of the embedded
  functions, exactly where the Python calls out to `cv2`.
* Python `dict` insertion/update semantics and Python negative-index
  list access are modelled explicitly (`dictUpdate`, `pyGet`).
-/

namespace LocSystem

/-- Squared Euclidean distance between two descriptor vectors.
The Python matcher (`cv2.BFMatcher` with the default L2 norm) compares
true Euclidean distances; we carry their squares to stay in `ℚ`. -/
def sqDist (u v : List ℚ) : ℚ :=
  (List.zipWith (fun a b => (a - b) ^ 2) u v).sum

/-- First position of the minimum in a nonempty list of (index, distance)
pairs: the fold replaces the current best only on a strictly smaller
distance, so ties keep the earliest candidate. -/
def argmin2 : List (ℕ × ℚ) → Option (ℕ × ℚ)
  | [] => none
  | c :: rest => some (rest.foldl (fun b x => if x.2 < b.2 then x else b) c)

/-- Squared distances from one map descriptor to the query descriptors,
paired with the query index, starting at index `i`. -/
def candListAux (d : List ℚ) : List (List ℚ) → ℕ → List (ℕ × ℚ)
  | [], _ => []
  | q :: rest, i => (i, sqDist d q) :: candListAux d rest (i + 1)

/-- Squared distances from one map descriptor to every query descriptor,
paired with the query index. -/
def candList (d : List ℚ) (qs : List (List ℚ)) : List (ℕ × ℚ) :=
  candListAux d qs 0

/-- The two nearest query descriptors of a map descriptor
(`knnMatch(..., k=2)` for one row): the nearest, then the nearest among
the remaining query indices.  `none` when fewer than two query
descriptors exist; in the source that situation makes the
`for m, n in matches` unpacking raise `ValueError`, which
`matcher_match_run` below models as an error outcome. -/
def knn2 (d : List ℚ) (qs : List (List ℚ)) : Option ((ℕ × ℚ) × (ℕ × ℚ)) :=
  match argmin2 (candList d qs) with
  | none => none
  | some b =>
    match argmin2 ((candList d qs).filter (fun c => c.1 ≠ b.1)) with
    | none => none
    | some s => some (b, s)

/-- One entry of a `cv2.DMatch` pair as used by `FeatureMatcher.match`:
`queryIdx` indexes the first `knnMatch` argument (the map descriptors),
`trainIdx` the second (the query-image descriptors).  `distance` holds
the squared Euclidean distance (see module conventions). -/
structure DMatch where
  queryIdx : ℕ
  trainIdx : ℕ
  distance : ℚ
  deriving DecidableEq, Repr

/-- `matcher.knnMatch(map_descriptors, query_descriptors, k=2)`:
for the map descriptor at position `i` (offset by the accumulator) the
pair of its two nearest query descriptors. -/
def knnMatchAux (qs : List (List ℚ)) : List (List ℚ) → ℕ → List (DMatch × DMatch)
  | [], _ => []
  | d :: rest, i =>
    match knn2 d qs with
    | none => knnMatchAux qs rest (i + 1)
    | some ((j1, d1), (j2, d2)) =>
        (⟨i, j1, d1⟩, ⟨i, j2, d2⟩) :: knnMatchAux qs rest (i + 1)

/-- All `k = 2` matches, one pair per map descriptor. -/
def knnMatch (mapDs qs : List (List ℚ)) : List (DMatch × DMatch) :=
  knnMatchAux qs mapDs 0

/-- The Lowe ratio test of `FeatureMatcher.match`
(`m.distance < self.ratio_threshold * n.distance` on true distances;
on squared distances this is `< r^2 *`, equivalence proved below). -/
def goodMatches (mapDs qs : List (List ℚ)) (r : ℚ) : List DMatch :=
  (knnMatch mapDs qs).filterMap
    (fun p => if p.1.distance < r ^ 2 * p.2.distance then some p.1 else none)

/-- One step of the Python dict update
`if query_idx not in query_to_map or distance < query_to_map[query_idx][1]:
 query_to_map[query_idx] = (map_idx, distance)`:
absent keys are appended (dict insertion order), a present key keeps its
position and its value is replaced only on a strictly smaller distance. -/
def dictUpdate (d : List (ℕ × ℕ × ℚ)) (q mi : ℕ) (dist : ℚ) : List (ℕ × ℕ × ℚ) :=
  match d.find? (fun e => e.1 = q) with
  | none => d ++ [(q, mi, dist)]
  | some e =>
      if dist < e.2.2 then d.map (fun x => if x.1 = q then (q, mi, dist) else x) else d

/-- The deduplication dict of `FeatureMatcher.match`, keyed by query
keypoint index, valued by (map index, distance). -/
def queryToMap (gs : List DMatch) : List (ℕ × ℕ × ℚ) :=
  gs.foldl (fun d m => dictUpdate d m.trainIdx m.queryIdx m.distance) []

/-- `FeatureMatcher.match(map_descriptors, query_descriptors, query_keypoints)`.
Returns `none` for the `(None, None)` failure return.  Note the order in
the source: the `len(good_matches) < 4` gate runs *before* the
per-query-keypoint deduplication. -/
def matcherMatch (mapDs qs : List (List ℚ)) (kps : List (ℚ × ℚ)) (r : ℚ) :
    Option (List ℕ × List (ℚ × ℚ)) :=
  let gs := goodMatches mapDs qs r
  if gs.length < 4 then none
  else
    let qm := queryToMap gs
    some (qm.map (fun e => e.2.1), qm.map (fun e => kps.getD e.1 (0, 0)))

/-- `FeatureMatcher.match` including its error path.  `knnMatch` returns
one row per map descriptor holding `min(k, number of query descriptors)`
entries, so with a nonempty map and fewer than two query descriptors the
unpacking `for m, n in matches` raises `ValueError` before anything is
returned: that is the `Except.error ()` case.  With an empty map the
loop body never runs; with at least two query descriptors every row has
exactly two entries.  In both of those cases the call returns normally
(`matcherMatch`). -/
def matcher_match_run (mapDs qs : List (List ℚ)) (kps : List (ℚ × ℚ)) (r : ℚ) :
    Except Unit (Option (List ℕ × List (ℚ × ℚ))) :=
  if mapDs ≠ [] ∧ qs.length < 2 then Except.error ()
  else Except.ok (matcherMatch mapDs qs kps r)

/-! ### Basic properties of the matcher -/

theorem sqDist_nonneg (u v : List ℚ) : 0 ≤ sqDist u v := by
  refine List.sum_nonneg ?_
  intro x hx
  rw [List.mem_iff_getElem] at hx
  obtain ⟨n, hn, hx⟩ := hx
  rw [List.getElem_zipWith] at hx
  exact hx ▸ sq_nonneg _

theorem foldl_min_mem (l : List (ℕ × ℚ)) (c : ℕ × ℚ) :
    l.foldl (fun b x => if x.2 < b.2 then x else b) c = c ∨
      l.foldl (fun b x => if x.2 < b.2 then x else b) c ∈ l := by
  induction l generalizing c with
  | nil => exact Or.inl rfl
  | cons a l ih =>
    simp only [List.foldl_cons]
    rcases ih (if a.2 < c.2 then a else c) with h | h
    · rw [h]
      by_cases hc : a.2 < c.2
      · simp [hc]
      · simp [hc]
    · exact Or.inr (List.mem_cons_of_mem _ h)

theorem foldl_min_le (l : List (ℕ × ℚ)) (c : ℕ × ℚ) :
    (l.foldl (fun b x => if x.2 < b.2 then x else b) c).2 ≤ c.2 ∧
      ∀ x ∈ l, (l.foldl (fun b x => if x.2 < b.2 then x else b) c).2 ≤ x.2 := by
  induction l generalizing c with
  | nil => exact ⟨le_refl _, by simp⟩
  | cons a l ih =>
    simp only [List.foldl_cons]
    obtain ⟨h1, h2⟩ := ih (if a.2 < c.2 then a else c)
    have hca : (if a.2 < c.2 then a else c).2 ≤ c.2 ∧ (if a.2 < c.2 then a else c).2 ≤ a.2 := by
      by_cases hc : a.2 < c.2
      · simp [hc, le_of_lt hc]
      · simp [hc, le_of_not_lt hc]
    refine ⟨h1.trans hca.1, ?_⟩
    intro x hx
    rcases List.mem_cons.mp hx with rfl | hx
    · exact h1.trans hca.2
    · exact h2 x hx

theorem argmin2_mem {l : List (ℕ × ℚ)} {b : ℕ × ℚ} (h : argmin2 l = some b) : b ∈ l := by
  cases l with
  | nil => simp [argmin2] at h
  | cons c rest =>
    simp only [argmin2, Option.some.injEq] at h
    rcases foldl_min_mem rest c with h' | h'
    · rw [← h, h']; exact List.mem_cons_self _ _
    · rw [← h]; exact List.mem_cons_of_mem _ h'

theorem argmin2_le {l : List (ℕ × ℚ)} {b : ℕ × ℚ} (h : argmin2 l = some b) :
    ∀ c ∈ l, b.2 ≤ c.2 := by
  cases l with
  | nil => simp [argmin2] at h
  | cons a rest =>
    simp only [argmin2, Option.some.injEq] at h
    intro x hx
    rcases List.mem_cons.mp hx with h' | hx
    · rw [h']
      exact h ▸ (foldl_min_le rest a).1
    · exact h ▸ (foldl_min_le rest a).2 x hx

theorem argmin2_eq_none_iff {l : List (ℕ × ℚ)} : argmin2 l = none ↔ l = [] := by
  cases l <;> simp [argmin2]

theorem candListAux_mem {d : List ℚ} {qs : List (List ℚ)} {i : ℕ} {c : ℕ × ℚ} :
    c ∈ candListAux d qs i ↔
      ∃ j q, qs.get? j = some q ∧ c = (i + j, sqDist d q) := by
  induction qs generalizing i with
  | nil => simp [candListAux]
  | cons q rest ih =>
    simp only [candListAux, List.mem_cons, ih]
    constructor
    · rintro (rfl | ⟨j, q', hj, rfl⟩)
      · exact ⟨0, q, by simp⟩
      · exact ⟨j + 1, q', by simpa using hj, by simp; ring⟩
    · rintro ⟨j, q', hj, rfl⟩
      cases j with
      | zero =>
        left
        simp only [List.get?_cons_zero, Option.some.injEq] at hj
        simp [hj]
      | succ j =>
        right
        refine ⟨j, q', by simpa using hj, ?_⟩
        simp; ring

/-- Every distance produced by `candListAux` is a squared distance to some
query descriptor, hence nonnegative. -/
theorem candListAux_dist_nonneg {d : List ℚ} {qs : List (List ℚ)} {i : ℕ} {c : ℕ × ℚ}
    (h : c ∈ candListAux d qs i) : 0 ≤ c.2 := by
  obtain ⟨j, q, _, rfl⟩ := candListAux_mem.mp h
  exact sqDist_nonneg d q

/-- `knn2` output: the best distance, the second distance, their order,
and nonnegativity. -/
theorem knn2_spec {d : List ℚ} {qs : List (List ℚ)} {b s : ℕ × ℚ}
    (h : knn2 d qs = some (b, s)) :
    b ∈ candList d qs ∧ s ∈ candList d qs ∧ b.2 ≤ s.2 ∧ 0 ≤ b.2 ∧ 0 ≤ s.2 := by
  unfold knn2 at h
  cases hb : argmin2 (candList d qs) with
  | none => rw [hb] at h; simp at h
  | some b' =>
    rw [hb] at h
    dsimp only at h
    cases hs : argmin2 ((candList d qs).filter (fun c => c.1 ≠ b'.1)) with
    | none => rw [hs] at h; simp at h
    | some s' =>
      rw [hs] at h
      dsimp only at h
      simp only [Option.some.injEq, Prod.mk.injEq] at h
      obtain ⟨rfl, rfl⟩ := h
      have hbm := argmin2_mem hb
      have hsm := List.mem_of_mem_filter (argmin2_mem hs)
      exact ⟨hbm, hsm, argmin2_le hb _ hsm,
        candListAux_dist_nonneg hbm, candListAux_dist_nonneg hsm⟩

/-- With at least two query descriptors, `knn2` always succeeds
(otherwise the Python tuple unpacking would have raised). -/
theorem candListAux_length (d : List ℚ) (qs : List (List ℚ)) (i : ℕ) :
    (candListAux d qs i).length = qs.length := by
  induction qs generalizing i with
  | nil => simp [candListAux]
  | cons q rest ih => simp [candListAux, ih]

theorem knn2_isSome {d : List ℚ} {qs : List (List ℚ)} (h : 2 ≤ qs.length) :
    ∃ b s, knn2 d qs = some (b, s) := by
  obtain ⟨q0, qs1, rfl⟩ : ∃ q0 qs1, qs = q0 :: qs1 := by
    cases qs with
    | nil => simp at h
    | cons a t => exact ⟨a, t, rfl⟩
  obtain ⟨q1, qs2, rfl⟩ : ∃ q1 qs2, qs1 = q1 :: qs2 := by
    cases qs1 with
    | nil => simp at h
    | cons a t => exact ⟨a, t, rfl⟩
  cases hb : argmin2 (candList d (q0 :: q1 :: qs2)) with
  | none =>
    rw [argmin2_eq_none_iff] at hb
    simp [candList, candListAux] at hb
  | some b =>
    cases hs : argmin2 ((candList d (q0 :: q1 :: qs2)).filter (fun c => c.1 ≠ b.1)) with
    | none =>
      exfalso
      rw [argmin2_eq_none_iff, List.filter_eq_nil_iff] at hs
      -- indices 0 and 1 both occur in the candidate list; both cannot equal b.1
      have h0 : ((0 : ℕ), sqDist d q0) ∈ candList d (q0 :: q1 :: qs2) := by
        simp [candList, candListAux]
      have h1 : ((1 : ℕ), sqDist d q1) ∈ candList d (q0 :: q1 :: qs2) := by
        simp [candList, candListAux]
      have e0 := hs _ h0
      have e1 := hs _ h1
      simp at e0 e1
      omega
    | some s =>
      refine ⟨b, s, ?_⟩
      unfold knn2
      rw [hb]
      dsimp only
      rw [hs]

/-- Membership in the knn match list: one pair per map descriptor,
fully determined by the map index. -/
theorem knnMatchAux_mem {qs : List (List ℚ)} {ds : List (List ℚ)} {i : ℕ}
    {p : DMatch × DMatch} :
    p ∈ knnMatchAux qs ds i ↔
      ∃ k dk b s, ds.get? k = some dk ∧ knn2 dk qs = some (b, s) ∧
        p = (⟨i + k, b.1, b.2⟩, ⟨i + k, s.1, s.2⟩) := by
  induction ds generalizing i with
  | nil => simp [knnMatchAux]
  | cons d rest ih =>
    constructor
    · intro hp
      unfold knnMatchAux at hp
      cases hk : knn2 d qs with
      | none =>
        rw [hk] at hp
        obtain ⟨k, dk, b, s, h1, h2, h3⟩ := ih.mp hp
        exact ⟨k + 1, dk, b, s, by simpa using h1, h2, by simpa [Nat.add_comm, Nat.add_assoc,
          Nat.add_left_comm] using h3⟩
      | some bs =>
        rw [hk] at hp
        obtain ⟨⟨j1, d1⟩, ⟨j2, d2⟩⟩ := bs
        rcases List.mem_cons.mp hp with h' | hp'
        · exact ⟨0, d, (j1, d1), (j2, d2), by simp, hk, by simpa using h'⟩
        · obtain ⟨k, dk, b, s, h1, h2, h3⟩ := ih.mp hp'
          exact ⟨k + 1, dk, b, s, by simpa using h1, h2, by simpa [Nat.add_comm, Nat.add_assoc,
            Nat.add_left_comm] using h3⟩
    · rintro ⟨k, dk, b, s, h1, h2, rfl⟩
      cases k with
      | zero =>
        simp only [List.get?_cons_zero, Option.some.injEq] at h1
        subst h1
        unfold knnMatchAux
        rw [h2]
        simp
      | succ k =>
        simp only [List.get?_cons_succ] at h1
        have hq : i + (k + 1) = (i + 1) + k := by omega
        unfold knnMatchAux
        cases hk : knn2 d qs with
        | none => exact ih.mpr ⟨k, dk, b, s, h1, h2, by rw [hq]⟩
        | some bs =>
          obtain ⟨⟨j1, d1⟩, ⟨j2, d2⟩⟩ := bs
          exact List.mem_cons_of_mem _ (ih.mpr ⟨k, dk, b, s, h1, h2, by rw [hq]⟩)

theorem knnMatch_mem {mapDs qs : List (List ℚ)} {p : DMatch × DMatch} :
    p ∈ knnMatch mapDs qs ↔
      ∃ k dk b s, mapDs.get? k = some dk ∧ knn2 dk qs = some (b, s) ∧
        p = (⟨k, b.1, b.2⟩, ⟨k, s.1, s.2⟩) := by
  unfold knnMatch
  rw [knnMatchAux_mem]
  simp

/-- The map index determines the knn pair: two pairs sharing the first
component's map index are equal. -/
theorem knnMatch_unique {mapDs qs : List (List ℚ)} {p p' : DMatch × DMatch}
    (hp : p ∈ knnMatch mapDs qs) (hp' : p' ∈ knnMatch mapDs qs)
    (h : p.1.queryIdx = p'.1.queryIdx) : p = p' := by
  obtain ⟨k, dk, b, s, h1, h2, rfl⟩ := knnMatch_mem.mp hp
  obtain ⟨k', dk', b', s', h1', h2', rfl⟩ := knnMatch_mem.mp hp'
  simp only at h
  subst h
  rw [h1] at h1'
  obtain rfl : dk = dk' := by simpa using h1'
  rw [h2] at h2'
  obtain ⟨rfl, rfl⟩ : b = b' ∧ s = s' := by
    have h3 := h2'.symm
    simp only [Option.some.injEq, Prod.mk.injEq] at h3
    exact ⟨h3.1.symm, h3.2.symm⟩
  rfl

/-- Membership in the ratio-test survivors. -/
theorem mem_goodMatches {mapDs qs : List (List ℚ)} {r : ℚ} {m : DMatch} :
    m ∈ goodMatches mapDs qs r ↔
      ∃ n, (m, n) ∈ knnMatch mapDs qs ∧ m.distance < r ^ 2 * n.distance := by
  unfold goodMatches
  rw [List.mem_filterMap]
  constructor
  · rintro ⟨⟨m', n⟩, hmem, hcond⟩
    by_cases hc : m'.distance < r ^ 2 * n.distance
    · simp only [hc, if_pos] at hcond
      obtain rfl : m' = m := by simpa using hcond
      exact ⟨n, hmem, hc⟩
    · simp [hc] at hcond
  · rintro ⟨n, hmem, hcond⟩
    exact ⟨(m, n), hmem, by simp [hcond]⟩

/-! ### The deduplication dict -/

/-- Invariant of the Python `query_to_map` dict after folding a prefix
`gs` of the accepted matches: keys (query indices) are unique, a key is
present iff some processed candidate carries it, each stored value comes
from a processed candidate, and each stored distance is minimal among
the processed candidates for that key. -/
structure DictInv (gs : List DMatch) (d : List (ℕ × ℕ × ℚ)) : Prop where
  nodupKeys : (d.map (fun e => e.1)).Nodup
  keysIff : ∀ q, (∃ e ∈ d, e.1 = q) ↔ (∃ m ∈ gs, m.trainIdx = q)
  valueMem : ∀ e ∈ d, ∃ m ∈ gs, m.trainIdx = e.1 ∧ m.queryIdx = e.2.1 ∧ m.distance = e.2.2
  valueMin : ∀ e ∈ d, ∀ m ∈ gs, m.trainIdx = e.1 → e.2.2 ≤ m.distance

theorem dictInv_nil : DictInv [] [] := by
  refine ⟨by simp, by simp, by simp, by simp⟩

theorem dictUpdate_first {x : ℕ × ℕ × ℚ} (q mi : ℕ) (dist : ℚ) :
    (if x.1 = q then (q, mi, dist) else x).1 = x.1 := by
  by_cases h : x.1 = q <;> simp [h]

theorem dictInv_step {gs : List DMatch} {d : List (ℕ × ℕ × ℚ)} (inv : DictInv gs d)
    (m : DMatch) :
    DictInv (gs ++ [m]) (dictUpdate d m.trainIdx m.queryIdx m.distance) := by
  cases hf : d.find? (fun e => e.1 = m.trainIdx) with
  | none =>
    have hd : dictUpdate d m.trainIdx m.queryIdx m.distance =
        d ++ [(m.trainIdx, m.queryIdx, m.distance)] := by
      simp only [dictUpdate, hf]
    rw [hd]
    have habs : ∀ x ∈ d, x.1 ≠ m.trainIdx := by
      intro x hx
      have h' := List.find?_eq_none.mp hf x hx
      simpa using h'
    refine ⟨?_, ?_, ?_, ?_⟩
    · rw [List.map_append, List.nodup_append]
      refine ⟨inv.nodupKeys, by simp, ?_⟩
      intro a ha hb
      simp only [List.map_cons, List.map_nil, List.mem_singleton] at hb
      subst hb
      obtain ⟨x, hx, hxq⟩ := List.mem_map.mp ha
      exact habs x hx hxq
    · intro q
      constructor
      · rintro ⟨e, he, rfl⟩
        rcases List.mem_append.mp he with he | he
        · obtain ⟨m', hm', hq⟩ := (inv.keysIff e.1).mp ⟨e, he, rfl⟩
          exact ⟨m', List.mem_append_left _ hm', hq⟩
        · simp only [List.mem_singleton] at he
          subst he
          exact ⟨m, List.mem_append_right _ (List.mem_singleton_self m), rfl⟩
      · rintro ⟨m', hm', rfl⟩
        rcases List.mem_append.mp hm' with hm' | hm'
        · obtain ⟨e, he, hq⟩ := (inv.keysIff m'.trainIdx).mpr ⟨m', hm', rfl⟩
          exact ⟨e, List.mem_append_left _ he, hq⟩
        · simp only [List.mem_singleton] at hm'
          subst hm'
          exact ⟨(m'.trainIdx, m'.queryIdx, m'.distance),
            List.mem_append_right _ (by simp), rfl⟩
    · intro e he
      rcases List.mem_append.mp he with he | he
      · obtain ⟨m', hm', h⟩ := inv.valueMem e he
        exact ⟨m', List.mem_append_left _ hm', h⟩
      · simp only [List.mem_singleton] at he
        subst he
        exact ⟨m, List.mem_append_right _ (by simp), rfl, rfl, rfl⟩
    · intro e he m' hm' hq
      rcases List.mem_append.mp he with he | he
      · rcases List.mem_append.mp hm' with hm2 | hm2
        · exact inv.valueMin e he m' hm2 hq
        · simp only [List.mem_singleton] at hm2
          rw [hm2] at hq
          exact absurd hq.symm (habs e he)
      · simp only [List.mem_singleton] at he
        subst he
        rcases List.mem_append.mp hm' with hm' | hm'
        · exfalso
          obtain ⟨e', he', hq'⟩ := (inv.keysIff m'.trainIdx).mpr ⟨m', hm', rfl⟩
          simp only at hq
          exact habs e' he' (by rw [hq', ← hq])
        · simp only [List.mem_singleton] at hm'
          subst hm'
          exact le_refl _
  | some e0 =>
    have he0 : e0 ∈ d := List.mem_of_find?_eq_some hf
    have he0q : e0.1 = m.trainIdx := by simpa using List.find?_some hf
    by_cases hlt : m.distance < e0.2.2
    · have hd : dictUpdate d m.trainIdx m.queryIdx m.distance =
          d.map (fun x => if x.1 = m.trainIdx then (m.trainIdx, m.queryIdx, m.distance)
            else x) := by
        simp only [dictUpdate, hf, if_pos hlt]
      rw [hd]
      have hkeys : (d.map (fun x => if x.1 = m.trainIdx then
          (m.trainIdx, m.queryIdx, m.distance) else x)).map (fun e => e.1) =
            d.map (fun e => e.1) := by
        rw [List.map_map]
        exact List.map_congr_left (fun a _ => dictUpdate_first m.trainIdx m.queryIdx m.distance)
      refine ⟨?_, ?_, ?_, ?_⟩
      · rw [hkeys]; exact inv.nodupKeys
      · intro q
        have hk : (∃ e ∈ d.map (fun x => if x.1 = m.trainIdx then
            (m.trainIdx, m.queryIdx, m.distance) else x), e.1 = q) ↔ ∃ e ∈ d, e.1 = q := by
          constructor
          · rintro ⟨e, he, rfl⟩
            obtain ⟨x, hx, hxe⟩ := List.mem_map.mp he
            refine ⟨x, hx, ?_⟩
            rw [← hxe]
            exact (dictUpdate_first m.trainIdx m.queryIdx m.distance).symm
          · rintro ⟨e, he, rfl⟩
            refine ⟨if e.1 = m.trainIdx then (m.trainIdx, m.queryIdx, m.distance) else e,
              List.mem_map.mpr ⟨e, he, rfl⟩, ?_⟩
            exact dictUpdate_first m.trainIdx m.queryIdx m.distance
        rw [hk, inv.keysIff]
        constructor
        · rintro ⟨m', hm', rfl⟩
          exact ⟨m', List.mem_append_left _ hm', rfl⟩
        · rintro ⟨m', hm', rfl⟩
          rcases List.mem_append.mp hm' with hm2 | hm2
          · exact ⟨m', hm2, rfl⟩
          · simp only [List.mem_singleton] at hm2
            rw [hm2]
            exact (inv.keysIff _).mp ⟨e0, he0, he0q⟩
      · intro e he
        obtain ⟨x, hx, hxe⟩ := List.mem_map.mp he
        by_cases hxq : x.1 = m.trainIdx
        · rw [if_pos hxq] at hxe
          subst hxe
          exact ⟨m, List.mem_append_right _ (by simp), rfl, rfl, rfl⟩
        · rw [if_neg hxq] at hxe
          subst hxe
          obtain ⟨m', hm', h⟩ := inv.valueMem x hx
          exact ⟨m', List.mem_append_left _ hm', h⟩
      · intro e he m' hm' hq
        obtain ⟨x, hx, hxe⟩ := List.mem_map.mp he
        rcases List.mem_append.mp hm' with hm' | hm'
        · by_cases hxq : x.1 = m.trainIdx
          · rw [if_pos hxq] at hxe
            subst hxe
            simp only at hq ⊢
            -- the replaced entry: m.distance < e0.2.2 ≤ distance of m'
            have h2 : e0.2.2 ≤ m'.distance := inv.valueMin e0 he0 m' hm' (by rw [he0q, ← hq])
            exact le_of_lt (lt_of_lt_of_le hlt h2)
          · rw [if_neg hxq] at hxe
            subst hxe
            exact inv.valueMin x hx m' hm' hq
        · simp only [List.mem_singleton] at hm'
          rw [hm'] at hq ⊢
          by_cases hxq : x.1 = m.trainIdx
          · rw [if_pos hxq] at hxe
            subst hxe
            exact le_refl _
          · rw [if_neg hxq] at hxe
            subst hxe
            exact absurd hq.symm hxq
    · have hd : dictUpdate d m.trainIdx m.queryIdx m.distance = d := by
        simp only [dictUpdate, hf, if_neg hlt]
      rw [hd]
      refine ⟨inv.nodupKeys, ?_, ?_, ?_⟩
      · intro q
        rw [inv.keysIff]
        constructor
        · rintro ⟨m', hm', rfl⟩
          exact ⟨m', List.mem_append_left _ hm', rfl⟩
        · rintro ⟨m', hm', rfl⟩
          rcases List.mem_append.mp hm' with hm2 | hm2
          · exact ⟨m', hm2, rfl⟩
          · simp only [List.mem_singleton] at hm2
            rw [hm2]
            exact (inv.keysIff _).mp ⟨e0, he0, he0q⟩
      · intro e he
        obtain ⟨m', hm', h⟩ := inv.valueMem e he
        exact ⟨m', List.mem_append_left _ hm', h⟩
      · intro e he m' hm' hq
        rcases List.mem_append.mp hm' with hm' | hm'
        · exact inv.valueMin e he m' hm' hq
        · simp only [List.mem_singleton] at hm'
          rw [hm'] at hq ⊢
          -- keys are unique, so e is the found entry e0
          have hee : e = e0 :=
            List.inj_on_of_nodup_map inv.nodupKeys he he0 (by rw [← hq, he0q])
          rw [hee]
          exact le_of_not_lt hlt

theorem dictInv_foldl (gs : List DMatch) :
    ∀ (pre : List DMatch) (d : List (ℕ × ℕ × ℚ)), DictInv pre d →
      DictInv (pre ++ gs)
        (gs.foldl (fun d m => dictUpdate d m.trainIdx m.queryIdx m.distance) d) := by
  induction gs with
  | nil => intro pre d h; simpa using h
  | cons m gs ih =>
    intro pre d h
    have h' := dictInv_step h m
    have := ih (pre ++ [m]) _ h'
    simpa [List.append_assoc] using this

/-- The fully folded dict satisfies the invariant. -/
theorem queryToMap_inv (gs : List DMatch) : DictInv gs (queryToMap gs) := by
  have := dictInv_foldl gs [] [] dictInv_nil
  simpa [queryToMap] using this

/-! ### Claims about the matcher -/

/-- Squaring bridge: comparing true Euclidean distances with threshold
`r` is the same as comparing the squared distances with `r ^ 2`. -/
theorem sq_ratio_iff {a b r : ℚ} (ha : 0 ≤ a) (hr : 0 ≤ r) :
    a < r ^ 2 * b ↔ Real.sqrt a < r * Real.sqrt b := by
  have h1 : (r : ℝ) * Real.sqrt (b : ℝ) = Real.sqrt ((r : ℝ) ^ 2 * (b : ℝ)) := by
    rw [Real.sqrt_mul (sq_nonneg _), Real.sqrt_sq (show (0 : ℝ) ≤ (r : ℝ) by exact_mod_cast hr)]
  have h2 : Real.sqrt ((a : ℚ) : ℝ) < Real.sqrt ((r : ℝ) ^ 2 * (b : ℝ)) ↔
      ((a : ℚ) : ℝ) < (r : ℝ) ^ 2 * (b : ℝ) :=
    Real.sqrt_lt_sqrt_iff (by exact_mod_cast ha)
  rw [h1, h2]
  constructor <;> intro h <;> exact_mod_cast h

/-- C5: for every map descriptor, calling its two nearest query-descriptor
distances `a ≤ b`, the ratio test accepts the candidate iff
`a < r · b` (true Euclidean distances), and a tie `a = r · b` is
rejected.  Stated over the squared-distance embedding through
`Real.sqrt`. -/
theorem claim_C5_ratio_test_boundary (mapDs qs : List (List ℚ)) (r : ℚ) (hr : 0 ≤ r)
    (mn : DMatch × DMatch) (hmem : mn ∈ knnMatch mapDs qs) :
    mn.1.distance ≤ mn.2.distance ∧
      (mn.1 ∈ goodMatches mapDs qs r ↔
        Real.sqrt mn.1.distance < r * Real.sqrt mn.2.distance) ∧
      (Real.sqrt mn.1.distance = r * Real.sqrt mn.2.distance →
        mn.1 ∉ goodMatches mapDs qs r) := by
  obtain ⟨k, dk, b, s, h1, h2, rfl⟩ := knnMatch_mem.mp hmem
  obtain ⟨hbm, hsm, hbs, hb0, hs0⟩ := knn2_spec h2
  have hiff : (⟨k, b.1, b.2⟩ : DMatch) ∈ goodMatches mapDs qs r ↔
      Real.sqrt (b.2 : ℚ) < r * Real.sqrt (s.2 : ℚ) := by
    rw [← sq_ratio_iff hb0 hr]
    constructor
    · intro hg
      obtain ⟨n, hmem2, hcond⟩ := mem_goodMatches.mp hg
      have := knnMatch_unique hmem2 hmem rfl
      have hn : n = (⟨k, s.1, s.2⟩ : DMatch) := congrArg Prod.snd this
      rw [hn] at hcond
      exact hcond
    · intro hcond
      exact mem_goodMatches.mpr ⟨⟨k, s.1, s.2⟩, hmem, hcond⟩
  refine ⟨hbs, hiff, ?_⟩
  intro heq hg
  rw [hiff] at hg
  rw [heq] at hg
  exact lt_irrefl _ hg

/-- C5 witness: for map descriptor `[3]` and query descriptors
`[0]`, `[7]` the two distances are `3` and `4` (squares `9`, `16`), and
with the default threshold `3/4` the tie `3 = (3/4)·4` is on the
rejection boundary. -/
theorem claim_C5_witness :
    (((⟨0, 0, 9⟩ : DMatch), (⟨0, 1, 16⟩ : DMatch)) ∈ knnMatch [[3]] [[0], [7]]) ∧
      ((⟨0, 0, 9⟩ : DMatch).distance ≤ (⟨0, 1, 16⟩ : DMatch).distance ∧
        ((⟨0, 0, 9⟩ : DMatch) ∈ goodMatches [[3]] [[0], [7]] (3/4) ↔
          Real.sqrt ((⟨0, 0, 9⟩ : DMatch).distance : ℚ) <
            (3/4 : ℚ) * Real.sqrt ((⟨0, 1, 16⟩ : DMatch).distance : ℚ)) ∧
        (Real.sqrt ((⟨0, 0, 9⟩ : DMatch).distance : ℚ) =
            (3/4 : ℚ) * Real.sqrt ((⟨0, 1, 16⟩ : DMatch).distance : ℚ) →
          (⟨0, 0, 9⟩ : DMatch) ∉ goodMatches [[3]] [[0], [7]] (3/4))) := by
  have hmem : ((⟨0, 0, 9⟩ : DMatch), (⟨0, 1, 16⟩ : DMatch)) ∈ knnMatch [[3]] [[0], [7]] := by
    norm_num [knnMatch, knnMatchAux, knn2, candList, candListAux, argmin2, sqDist]
  exact ⟨hmem, claim_C5_ratio_test_boundary [[3]] [[0], [7]] (3/4) (by norm_num) _ hmem⟩

/-- C4: for a query keypoint index `q` with at least two ratio-test
survivors, exactly one dict entry for `q` remains, it records the
minimal distance among the candidates for `q` (attained by one of
them), keys are pairwise distinct (at most one correspondence per query
keypoint), and a successful match returns exactly one output entry per
dict entry. -/
theorem claim_C4_dedup_minimal (mapDs qs : List (List ℚ)) (kps : List (ℚ × ℚ)) (r : ℚ)
    (q : ℕ)
    (hq : 2 ≤ ((goodMatches mapDs qs r).filter (fun m => m.trainIdx = q)).length) :
    (∃! e : ℕ × ℕ × ℚ, e ∈ queryToMap (goodMatches mapDs qs r) ∧ e.1 = q) ∧
    (∀ e ∈ queryToMap (goodMatches mapDs qs r), e.1 = q →
       (∃ m ∈ goodMatches mapDs qs r, m.trainIdx = q ∧ m.distance = e.2.2) ∧
       (∀ m ∈ goodMatches mapDs qs r, m.trainIdx = q → e.2.2 ≤ m.distance)) ∧
    ((queryToMap (goodMatches mapDs qs r)).map (fun e => e.1)).Nodup ∧
    (∀ idxs pts, matcherMatch mapDs qs kps r = some (idxs, pts) →
       idxs.length = (queryToMap (goodMatches mapDs qs r)).length) := by
  have inv := queryToMap_inv (goodMatches mapDs qs r)
  have hcand : ∃ m ∈ goodMatches mapDs qs r, m.trainIdx = q := by
    have hne : ((goodMatches mapDs qs r).filter (fun m => m.trainIdx = q)) ≠ [] := by
      intro h
      rw [h] at hq
      simp at hq
    obtain ⟨m, hm⟩ := List.exists_mem_of_ne_nil _ hne
    have := List.mem_filter.mp hm
    exact ⟨m, this.1, by simpa using this.2⟩
  refine ⟨?_, ?_, inv.nodupKeys, ?_⟩
  · obtain ⟨e, he, heq⟩ := (inv.keysIff q).mpr hcand
    refine ⟨e, ⟨he, heq⟩, ?_⟩
    rintro e' ⟨he', heq'⟩
    exact List.inj_on_of_nodup_map inv.nodupKeys he' he (by rw [heq, heq'])
  · intro e he heq
    constructor
    · obtain ⟨m, hm, h1, _, h3⟩ := inv.valueMem e he
      exact ⟨m, hm, by rw [h1, heq], h3⟩
    · intro m hm hmq
      exact inv.valueMin e he m hm (by rw [hmq, heq])
  · intro idxs pts hres
    unfold matcherMatch at hres
    by_cases hlen : (goodMatches mapDs qs r).length < 4
    · simp [hlen] at hres
    · simp only [hlen, if_neg, if_false] at hres
      have h1 : idxs = (queryToMap (goodMatches mapDs qs r)).map (fun e => e.2.1) :=
        (congrArg Prod.fst (Option.some.inj hres)).symm
      rw [h1, List.length_map]

/-- C4 witness: four identical map descriptors all match query index 0;
the dict retains one minimal entry for it. -/
theorem claim_C4_witness :
    ∃! e : ℕ × ℕ × ℚ,
      e ∈ queryToMap (goodMatches [[0], [0], [0], [0]] [[0], [10]] (3/4)) ∧ e.1 = 0 := by
  refine (claim_C4_dedup_minimal [[0], [0], [0], [0]] [[0], [10]] [(5, 5), (6, 6)]
    (3/4) 0 ?_).1
  norm_num [goodMatches, knnMatch, knnMatchAux, knn2, candList, candListAux, argmin2, sqDist,
    List.filterMap_cons, List.filter]

/-- C1 as stated is false: when at least four candidates pass the ratio
test but deduplication collapses them onto fewer than four distinct
query keypoints, `match` returns the short list instead of failing.
Four identical map descriptors all match query keypoint 0: one
correspondence survives, and it is returned. -/
theorem claim_C1_counterexample :
    matcherMatch [[0], [0], [0], [0]] [[0], [10]] [(5, 5), (6, 6)] (3/4) =
        some ([0], [(5, 5)]) ∧ ([0] : List ℕ).length < 4 := by
  constructor
  · norm_num [matcherMatch, goodMatches, knnMatch, knnMatchAux, knn2, candList,
      candListAux, argmin2, sqDist, queryToMap, dictUpdate, List.find?,
      List.filterMap_cons]
  · norm_num

/-- C1 amended: with a nonempty map and fewer than two query
descriptors, the call raises `ValueError` instead of returning; with an
empty map it returns the failure (no candidates).  With at least two
query descriptors, the call returns the failure exactly when fewer than
four candidates pass the ratio test, *before* deduplication; when at
least four pass, the deduplicated survivors (possibly fewer than four)
are returned as-is. -/
theorem claim_C1_insufficient_gate (mapDs qs : List (List ℚ)) (kps : List (ℚ × ℚ)) (r : ℚ) :
    (mapDs ≠ [] → qs.length < 2 → matcher_match_run mapDs qs kps r = Except.error ()) ∧
    (mapDs = [] → matcher_match_run mapDs qs kps r = Except.ok none) ∧
    (2 ≤ qs.length →
      (matcher_match_run mapDs qs kps r = Except.ok none ↔
        (goodMatches mapDs qs r).length < 4) ∧
      (∀ idxs pts, matcher_match_run mapDs qs kps r = Except.ok (some (idxs, pts)) →
         4 ≤ (goodMatches mapDs qs r).length ∧
         idxs = (queryToMap (goodMatches mapDs qs r)).map (fun e => e.2.1) ∧
         pts = (queryToMap (goodMatches mapDs qs r)).map (fun e => kps.getD e.1 (0, 0)))) := by
  refine ⟨?_, ?_, ?_⟩
  · intro hne hq
    simp [matcher_match_run, hne, hq]
  · intro hnil
    subst hnil
    simp [matcher_match_run, matcherMatch, goodMatches, knnMatch, knnMatchAux,
      queryToMap]
  · intro hq
    have hok : matcher_match_run mapDs qs kps r = Except.ok (matcherMatch mapDs qs kps r) := by
      simp [matcher_match_run, Nat.not_lt.mpr hq]
    rw [hok]
    unfold matcherMatch
    by_cases hlen : (goodMatches mapDs qs r).length < 4
    · simp [hlen]
    · constructor
      · simp [hlen]
      · intro idxs pts hres
        simp only [hlen, if_neg, if_false, Except.ok.injEq] at hres
        obtain ⟨h1, h2⟩ := Prod.mk.inj (Option.some.inj hres).symm
        exact ⟨le_of_not_lt hlen, h1, h2⟩

/-- C1 amended witness: a nonempty map with one query descriptor raises;
at the four-identical-descriptor input (two query descriptors) the gate
passes with four candidates and the single dedup survivor is returned. -/
theorem claim_C1_insufficient_gate_witness :
    matcher_match_run [[0]] [[7]] [(1, 1)] (3/4) = Except.error () ∧
      4 ≤ (goodMatches [[0], [0], [0], [0]] [[0], [10]] (3/4)).length ∧
      ([0] : List ℕ) =
        (queryToMap (goodMatches [[0], [0], [0], [0]] [[0], [10]] (3/4))).map
          (fun e => e.2.1) := by
  refine ⟨(claim_C1_insufficient_gate [[0]] [[7]] [(1, 1)] (3/4)).1 (by simp)
    (by norm_num), ?_⟩
  have h := ((claim_C1_insufficient_gate [[0], [0], [0], [0]] [[0], [10]]
      [(5, 5), (6, 6)] (3/4)).2.2 (by norm_num)).2 [0] [(5, 5)] ?_
  · exact ⟨h.1, h.2.1⟩
  · norm_num [matcher_match_run, matcherMatch, goodMatches, knnMatch, knnMatchAux,
      knn2, candList, candListAux, argmin2, sqDist, queryToMap, dictUpdate,
      List.find?, List.filterMap_cons]

/-! ### Pose estimator (`src/modules/pose_estimator.py`)

`cv2.solvePnPRansac` and `cv2.Rodrigues` are external collaborators:
they enter the embedding as the function parameters `solver` and
`rodrigues`.  Everything `PoseEstimator.estimate_pose` itself does
(the minimum-correspondence gate, the failure checks, the camera-center
derivation, the result record) is embedded concretely. -/

/-- Output of `cv2.solvePnPRansac`: success flag, rotation vector,
translation vector, optional inlier index list. -/
structure SolverOutput where
  success : Bool
  rvec : Fin 3 → ℚ
  tvec : Fin 3 → ℚ
  inliers : Option (List ℕ)

/-- The dict returned by `PoseEstimator.estimate_pose`. -/
structure PoseResult where
  position : Fin 3 → ℚ
  rotation : Matrix (Fin 3) (Fin 3) ℚ
  translation : Fin 3 → ℚ
  inliers : ℕ
  total : ℕ

/-- `C = -R.T @ t` from the source. -/
def cameraCenter (R : Matrix (Fin 3) (Fin 3) ℚ) (t : Fin 3 → ℚ) : Fin 3 → ℚ :=
  -(R.transpose.mulVec t)

/-- `PoseEstimator.estimate_pose(points_3d, points_2d, K)`; the
intrinsics matrix only flows through to the solver, so it is absorbed
into the `solver` parameter. -/
def estimate_pose (solver : List (Fin 3 → ℚ) → List (ℚ × ℚ) → SolverOutput)
    (rodrigues : (Fin 3 → ℚ) → Matrix (Fin 3) (Fin 3) ℚ)
    (points3d : List (Fin 3 → ℚ)) (points2d : List (ℚ × ℚ)) : Option PoseResult :=
  if points3d.length < 4 ∨ points2d.length < 4 then none
  else
    let out := solver points3d points2d
    if out.success = false ∨ out.inliers = none then none
    else
      let R := rodrigues out.rvec
      let t := out.tvec
      some { position := cameraCenter R t, rotation := R, translation := t,
             inliers := (out.inliers.getD []).length, total := points3d.length }

/-! ### Map loader (`src/modules/map_loader.py`) -/

/-- `MapLoader.load_map` after the external `np.load` has produced the
two arrays: the length check and the returned pair.  A raised
`ValueError` is the `Except.error` case. -/
def load_map (xyz_world : List (Fin 3 → ℚ)) (descriptors : List (List ℚ)) :
    Except String (List (Fin 3 → ℚ) × List (List ℚ)) :=
  if xyz_world.length ≠ descriptors.length then
    Except.error "Mismatch between number of 3D points and descriptors"
  else
    Except.ok (xyz_world, descriptors)

/-! ### Claims about the pose estimator and the map loader -/

/-- C3: whenever `estimate_pose` succeeds, the returned `position` is
`-rotationᵀ · translation` where `rotation` is the Rodrigues conversion
of the solver rotation output and `translation` is the solver
translation — for every possible solver behaviour, so the position is
derived, never read off the solver. -/
theorem claim_C3_position_from_rotation
    (solver : List (Fin 3 → ℚ) → List (ℚ × ℚ) → SolverOutput)
    (rodrigues : (Fin 3 → ℚ) → Matrix (Fin 3) (Fin 3) ℚ)
    (points3d : List (Fin 3 → ℚ)) (points2d : List (ℚ × ℚ)) (pose : PoseResult)
    (h : estimate_pose solver rodrigues points3d points2d = some pose) :
    pose.position = -(pose.rotation.transpose.mulVec pose.translation) ∧
    pose.rotation = rodrigues (solver points3d points2d).rvec ∧
    pose.translation = (solver points3d points2d).tvec := by
  unfold estimate_pose at h
  by_cases h1 : points3d.length < 4 ∨ points2d.length < 4
  · simp [h1] at h
  · simp only [h1, if_neg, if_false] at h
    by_cases h2 : (solver points3d points2d).success = false ∨
        (solver points3d points2d).inliers = none
    · simp [h2] at h
    · simp only [h2, if_neg, if_false] at h
      obtain rfl := (Option.some.inj h).symm
      exact ⟨rfl, rfl, rfl⟩

/-- A fixed stand-in for `cv2.solvePnPRansac`: always succeeds with
translation `(1, 2, 3)` and four inliers. -/
def stubSolver : List (Fin 3 → ℚ) → List (ℚ × ℚ) → SolverOutput :=
  fun _ _ => ⟨true, fun _ => 0, ![1, 2, 3], some [0, 1, 2, 3]⟩

/-- A fixed stand-in for `cv2.Rodrigues`: the identity rotation. -/
def stubRodrigues : (Fin 3 → ℚ) → Matrix (Fin 3) (Fin 3) ℚ :=
  fun _ => 1

/-- Four concrete world points. -/
def stubPoints3d : List (Fin 3 → ℚ) :=
  [![0, 0, 0], ![1, 0, 0], ![0, 1, 0], ![0, 0, 1]]

/-- Four concrete image points. -/
def stubPoints2d : List (ℚ × ℚ) :=
  [(0, 0), (1, 0), (0, 1), (1, 1)]

/-- The pose record produced at the stub input. -/
def stubPose : PoseResult :=
  { position := cameraCenter (stubRodrigues (fun _ => 0)) ![1, 2, 3],
    rotation := stubRodrigues (fun _ => 0),
    translation := ![1, 2, 3],
    inliers := 4, total := 4 }

/-- C3 witness: at the stub solver the call succeeds and the returned
position is the derived camera center. -/
theorem claim_C3_witness :
    estimate_pose stubSolver stubRodrigues stubPoints3d stubPoints2d = some stubPose ∧
      stubPose.position = -(stubPose.rotation.transpose.mulVec stubPose.translation) ∧
      stubPose.rotation = stubRodrigues (stubSolver stubPoints3d stubPoints2d).rvec ∧
      stubPose.translation = (stubSolver stubPoints3d stubPoints2d).tvec := by
  have h : estimate_pose stubSolver stubRodrigues stubPoints3d stubPoints2d =
      some stubPose := rfl
  exact ⟨h, claim_C3_position_from_rotation stubSolver stubRodrigues
    stubPoints3d stubPoints2d stubPose h⟩

/-- C9: with fewer than four 3D or 2D correspondences, `estimate_pose`
returns `None` immediately, whatever the solver would do — no solve is
attempted. -/
theorem claim_C9_insufficient_correspondences
    (solver : List (Fin 3 → ℚ) → List (ℚ × ℚ) → SolverOutput)
    (rodrigues : (Fin 3 → ℚ) → Matrix (Fin 3) (Fin 3) ℚ)
    (points3d : List (Fin 3 → ℚ)) (points2d : List (ℚ × ℚ))
    (h : points3d.length < 4 ∨ points2d.length < 4) :
    estimate_pose solver rodrigues points3d points2d = none := by
  unfold estimate_pose
  simp [h]

/-- C9 witness: three correspondences fail even for the always-successful
stub solver. -/
theorem claim_C9_witness :
    estimate_pose stubSolver stubRodrigues (stubPoints3d.take 3) (stubPoints2d.take 3) =
      none :=
  claim_C9_insufficient_correspondences stubSolver stubRodrigues _ _
    (Or.inl (by norm_num [stubPoints3d]))

/-- C6: loading fails on a length mismatch between the coordinate and
descriptor arrays, and every successfully loaded map store satisfies
`len(xyz) == len(descriptors)`. -/
theorem claim_C6_load_map_integrity :
    (∀ (xyz_world : List (Fin 3 → ℚ)) (descriptors : List (List ℚ)) out,
       load_map xyz_world descriptors = Except.ok out → out.1.length = out.2.length) ∧
    (∀ (xyz_world : List (Fin 3 → ℚ)) (descriptors : List (List ℚ)),
       xyz_world.length ≠ descriptors.length →
       load_map xyz_world descriptors =
         Except.error "Mismatch between number of 3D points and descriptors") := by
  constructor
  · intro xyz_world descriptors out h
    unfold load_map at h
    by_cases hl : xyz_world.length ≠ descriptors.length
    · simp [hl] at h
    · simp only [hl, if_neg, if_false] at h
      obtain rfl := (Except.ok.inj h).symm
      simpa using not_not.mp hl
  · intro xyz_world descriptors hl
    unfold load_map
    simp [hl]

/-- C6 witness: a mismatched pair fails; a matched pair loads with equal
lengths. -/
theorem claim_C6_witness :
    load_map [![0, 0, 0]] [[1], [2]] =
        Except.error "Mismatch between number of 3D points and descriptors" ∧
      (([![0, 0, 0]] : List (Fin 3 → ℚ)).length = ([[1]] : List (List ℚ)).length) := by
  constructor
  · exact claim_C6_load_map_integrity.2 [![0, 0, 0]] [[1], [2]] (by norm_num)
  · exact claim_C6_load_map_integrity.1 [![0, 0, 0]] [[1]] ([![0, 0, 0]], [[1]]) rfl

/-! ### Localiser (`src/modules/localiser.py`)

The SIFT extractor is external (`cv2.imread` + `detectAndCompute`
wrapped in a `try`): its outcome enters as an `ExtractResult`.  The
matcher and pose-estimator stages appear as function parameters so that
independence claims ("the stage is not run") can be stated by
quantifying over them; `localiseImpl` wires in the concrete embedded
stages. -/

/-- Result of the `feature_extractor.extract` call inside the `try`:
either the exception message, or keypoints plus an optional descriptor
array (`detectAndCompute` returns `None` descriptors on featureless
images). -/
inductive ExtractResult where
  | extractionError (msg : String)
  | extracted (kps : List (ℚ × ℚ)) (descs : Option (List (List ℚ)))

/-- `Localiser.localise`, stage by stage from the source.  Returns the
`(result, error_message)` pair. -/
def localise (xyz_world : List (Fin 3 → ℚ)) (map_descriptors : List (List ℚ))
    (matchFn : List (List ℚ) → List (List ℚ) → List (ℚ × ℚ) →
      Option (List ℕ × List (ℚ × ℚ)))
    (poseFn : List (Fin 3 → ℚ) → List (ℚ × ℚ) → Option PoseResult)
    (ext : ExtractResult) : Option PoseResult × Option String :=
  match ext with
  | .extractionError msg => (none, some ("Feature extraction failed: " ++ msg))
  | .extracted kps descs =>
    match descs with
    | none => (none, some "Not enough features detected in query image")
    | some ds =>
      if ds.length < 4 then (none, some "Not enough features detected in query image")
      else
        match matchFn map_descriptors ds kps with
        | none => (none, some "Not enough feature matches found")
        | some (idxs, pts) =>
          if idxs.length < 4 then (none, some "Not enough feature matches found")
          else
            let p3 := idxs.map (fun i => xyz_world.getD i (fun _ => 0))
            match poseFn p3 pts with
            | none => (none, some "Pose estimation failed (RANSAC)")
            | some pose => (some pose, none)

/-- The concrete pipeline: `localise` wired with the embedded matcher
and pose estimator (ratio threshold `r`; solver/rodrigues external). -/
def localiseImpl (xyz_world : List (Fin 3 → ℚ)) (map_descriptors : List (List ℚ))
    (r : ℚ) (solver : List (Fin 3 → ℚ) → List (ℚ × ℚ) → SolverOutput)
    (rodrigues : (Fin 3 → ℚ) → Matrix (Fin 3) (Fin 3) ℚ)
    (ext : ExtractResult) : Option PoseResult × Option String :=
  localise xyz_world map_descriptors
    (fun md ds kps => matcherMatch md ds kps r)
    (fun p3 p2 => estimate_pose solver rodrigues p3 p2) ext

/-- `Localiser.localise_batch`: sequential, independent per-image calls. -/
def localise_batch (xyz_world : List (Fin 3 → ℚ)) (map_descriptors : List (List ℚ))
    (matchFn : List (List ℚ) → List (List ℚ) → List (ℚ × ℚ) →
      Option (List ℕ × List (ℚ × ℚ)))
    (poseFn : List (Fin 3 → ℚ) → List (ℚ × ℚ) → Option PoseResult)
    (exts : List ExtractResult) : List (Option PoseResult × Option String) :=
  exts.map (localise xyz_world map_descriptors matchFn poseFn)

/-! ### Claims about the localiser -/

/-- C7: the pipeline short-circuits in stage order and propagates the
first failure.  An extraction error yields the extraction failure
message whatever the later stages would do; a small descriptor count
fails without consulting the matcher (the result is the same for every
`matchFn`/`poseFn`); a matcher failure fails without consulting the
pose estimator; a pose failure yields the RANSAC message; and only when
every stage succeeds is the pose returned with no error. -/
theorem claim_C7_stage_order (xyz_world : List (Fin 3 → ℚ))
    (map_descriptors : List (List ℚ)) :
    (∀ matchFn poseFn msg,
       localise xyz_world map_descriptors matchFn poseFn (.extractionError msg) =
         (none, some ("Feature extraction failed: " ++ msg))) ∧
    (∀ matchFn poseFn kps,
       localise xyz_world map_descriptors matchFn poseFn (.extracted kps none) =
         (none, some "Not enough features detected in query image")) ∧
    (∀ matchFn poseFn kps ds, ds.length < 4 →
       localise xyz_world map_descriptors matchFn poseFn (.extracted kps (some ds)) =
         (none, some "Not enough features detected in query image")) ∧
    (∀ matchFn poseFn kps ds, 4 ≤ ds.length →
       (matchFn map_descriptors ds kps = none ∨
         ∃ idxs pts, matchFn map_descriptors ds kps = some (idxs, pts) ∧ idxs.length < 4) →
       localise xyz_world map_descriptors matchFn poseFn (.extracted kps (some ds)) =
         (none, some "Not enough feature matches found")) ∧
    (∀ matchFn poseFn kps ds idxs pts, 4 ≤ ds.length →
       matchFn map_descriptors ds kps = some (idxs, pts) → 4 ≤ idxs.length →
       poseFn (idxs.map (fun i => xyz_world.getD i (fun _ => 0))) pts = none →
       localise xyz_world map_descriptors matchFn poseFn (.extracted kps (some ds)) =
         (none, some "Pose estimation failed (RANSAC)")) ∧
    (∀ matchFn poseFn kps ds idxs pts pose, 4 ≤ ds.length →
       matchFn map_descriptors ds kps = some (idxs, pts) → 4 ≤ idxs.length →
       poseFn (idxs.map (fun i => xyz_world.getD i (fun _ => 0))) pts = some pose →
       localise xyz_world map_descriptors matchFn poseFn (.extracted kps (some ds)) =
         (some pose, none)) := by
  refine ⟨fun _ _ _ => rfl, fun _ _ _ => rfl, ?_, ?_, ?_, ?_⟩
  · intro matchFn poseFn kps ds hds
    simp [localise, hds]
  · intro matchFn poseFn kps ds hds hm
    rcases hm with hm | ⟨idxs, pts, hm, hlen⟩
    · simp [localise, Nat.not_lt.mpr hds, hm]
    · simp [localise, Nat.not_lt.mpr hds, hm, hlen]
  · intro matchFn poseFn kps ds idxs pts hds hm hlen hp
    simp only [List.getD_eq_getElem?_getD] at hp
    simp [localise, Nat.not_lt.mpr hds, hm, Nat.not_lt.mpr hlen, hp]
  · intro matchFn poseFn kps ds idxs pts pose hds hm hlen hp
    simp only [List.getD_eq_getElem?_getD] at hp
    simp [localise, Nat.not_lt.mpr hds, hm, Nat.not_lt.mpr hlen, hp]

/-- Matcher stub that always fails, used to witness the localiser
claims. -/
def stubMatchNone : List (List ℚ) → List (List ℚ) → List (ℚ × ℚ) →
    Option (List ℕ × List (ℚ × ℚ)) :=
  fun _ _ _ => none

/-- Pose stub that always fails. -/
def stubPoseNone : List (Fin 3 → ℚ) → List (ℚ × ℚ) → Option PoseResult :=
  fun _ _ => none

/-- C7 witness: concrete instances of the short-circuit branches. -/
theorem claim_C7_witness :
    localise [] [] stubMatchNone stubPoseNone (.extractionError "boom") =
        (none, some ("Feature extraction failed: " ++ "boom")) ∧
      localise [] [] stubMatchNone stubPoseNone (.extracted [] (some [[0]])) =
        (none, some "Not enough features detected in query image") ∧
      localise [] [] stubMatchNone stubPoseNone
          (.extracted [] (some [[0], [1], [2], [3]])) =
        (none, some "Not enough feature matches found") := by
  have h := claim_C7_stage_order ([] : List (Fin 3 → ℚ)) ([] : List (List ℚ))
  exact ⟨h.1 stubMatchNone stubPoseNone "boom",
    h.2.2.1 stubMatchNone stubPoseNone [] [[0]] (by norm_num),
    h.2.2.2.1 stubMatchNone stubPoseNone [] [[0], [1], [2], [3]] (by norm_num)
      (Or.inl rfl)⟩

/-- C10: the `(pose, error)` pair is exclusive — the pose is present iff
the error is absent — and every error message is a non-empty string. -/
theorem claim_C10_exclusive_result (xyz_world : List (Fin 3 → ℚ))
    (map_descriptors : List (List ℚ))
    (matchFn : List (List ℚ) → List (List ℚ) → List (ℚ × ℚ) →
      Option (List ℕ × List (ℚ × ℚ)))
    (poseFn : List (Fin 3 → ℚ) → List (ℚ × ℚ) → Option PoseResult)
    (ext : ExtractResult) :
    ((localise xyz_world map_descriptors matchFn poseFn ext).1.isSome ↔
      (localise xyz_world map_descriptors matchFn poseFn ext).2 = none) ∧
    (∀ s, (localise xyz_world map_descriptors matchFn poseFn ext).2 = some s →
      0 < s.length) := by
  have hprefix : ∀ msg : String, 0 < ("Feature extraction failed: " ++ msg).length := by
    intro msg
    rw [String.length_append]
    have h5 : ("Feature extraction failed: ").length = 27 := by decide
    omega
  cases ext with
  | extractionError msg =>
    refine ⟨by simp [localise], ?_⟩
    intro s hs
    simp only [localise, Option.some.injEq] at hs
    rw [← hs]
    exact hprefix msg
  | extracted kps descs =>
    cases descs with
    | none =>
      refine ⟨by simp [localise], ?_⟩
      intro s hs
      simp only [localise, Option.some.injEq] at hs
      rw [← hs]
      decide
    | some ds =>
      by_cases hds : ds.length < 4
      · refine ⟨by simp [localise, hds], ?_⟩
        intro s hs
        simp only [localise, hds, if_pos, Option.some.injEq] at hs
        rw [← hs]
        decide
      · cases hm : matchFn map_descriptors ds kps with
        | none =>
          refine ⟨by simp [localise, hds, hm], ?_⟩
          intro s hs
          simp only [localise, hds, if_neg, if_false, hm, Option.some.injEq] at hs
          rw [← hs]
          decide
        | some res =>
          obtain ⟨idxs, pts⟩ := res
          by_cases hlen : idxs.length < 4
          · refine ⟨by simp [localise, hds, hm, hlen], ?_⟩
            intro s hs
            simp only [localise, hds, if_neg, if_false, hm, hlen, if_pos,
              Option.some.injEq] at hs
            rw [← hs]
            decide
          · cases hp : poseFn (idxs.map (fun i => xyz_world.getD i (fun _ => 0))) pts with
            | none =>
              have hp' := hp
              simp only [List.getD_eq_getElem?_getD] at hp'
              refine ⟨by simp [localise, hds, hm, hlen, hp'], ?_⟩
              intro s hs
              simp only [localise, hds, if_neg, if_false, hm, hlen] at hs
              rw [hp] at hs
              simp only [Option.some.injEq] at hs
              rw [← hs]
              decide
            | some pose =>
              have hp' := hp
              simp only [List.getD_eq_getElem?_getD] at hp'
              refine ⟨by simp [localise, hds, hm, hlen, hp'], ?_⟩
              intro s hs
              simp only [localise, hds, if_neg, if_false, hm, hlen] at hs
              rw [hp] at hs
              simp at hs

/-- C10 witness: a failing and a succeeding concrete run. -/
theorem claim_C10_witness :
    (0 <
      (((localise [] [] stubMatchNone stubPoseNone (.extractionError "x")).2.getD "").length)) ∧
    ((localise [] [] stubMatchNone stubPoseNone (.extractionError "x")).1.isSome ↔
      (localise [] [] stubMatchNone stubPoseNone (.extractionError "x")).2 = none) := by
  have h := claim_C10_exclusive_result [] [] stubMatchNone stubPoseNone
    (.extractionError "x")
  refine ⟨?_, h.1⟩
  exact h.2 ("Feature extraction failed: " ++ "x") rfl

/-! ### Map builder (`src/modules/map_builder.py`)

`build_map_database` iterates over the parsed 3D points; for each point
with a non-empty track it takes the first `(image_id, keypoint_index)`
entry, resolves the image name through the `images_data` dict, looks up
that image's descriptor table in the dataframe, and — when
`first_kp_idx < len(descriptors)` — appends
`(xyz, descriptors[first_kp_idx])`.  Both the resolution dict and the
dataframe are modelled as association lists searched front-to-back.
Python indexing semantics matter here: the guard admits negative
indices, which index from the end of the table (`pyGet`), and an index
below `-len` raises `IndexError` (`Except.error`). -/

/-- A record parsed from `points3D.txt`: id, coordinates, and the track
of `(IMAGE_ID, POINT2D_IDX)` pairs.  Both track components are parsed
with `int(...)`, hence `ℤ`. -/
structure Point3D where
  id : ℤ
  xyz : Fin 3 → ℚ
  track : List (ℤ × ℤ)

/-- Python list indexing `l[i]` for `i < len(l)`: nonnegative indices
count from the front, negative ones from the end; `none` is an
`IndexError`. -/
def pyGet {α : Type} (l : List α) (i : ℤ) : Option α :=
  if 0 ≤ i then l.get? i.toNat
  else if 0 ≤ (l.length : ℤ) + i then l.get? ((l.length : ℤ) + i).toNat
  else none

/-- `images_data.get(first_img_id)` on the parsed `images.txt` dict. -/
def lookupImage (images_data : List (ℤ × String)) (imgId : ℤ) : Option String :=
  (images_data.find? (fun e => e.1 = imgId)).map Prod.snd

/-- `df[df['image'] == img_name]` followed by `iloc[0]`: the first
matching descriptor table, if any. -/
def lookupDescriptors (df : List (String × List (List ℚ))) (img_name : String) :
    Option (List (List ℚ)) :=
  (df.find? (fun e => e.1 = img_name)).map Prod.snd

/-- The body of the `for point in points` loop of `build_map_database`:
`Except.ok none` means the point is dropped, `Except.ok (some entry)`
that `entry` is appended, `Except.error ()` that the iteration raises
(`IndexError` from a negative index below `-len`).  Note the falsy check
`if not img_name` also drops an empty resolved name. -/
def processPoint (images_data : List (ℤ × String)) (df : List (String × List (List ℚ)))
    (point : Point3D) : Except Unit (Option ((Fin 3 → ℚ) × List ℚ)) :=
  match point.track with
  | [] => Except.ok none
  | (first_img_id, first_kp_idx) :: _ =>
    match lookupImage images_data first_img_id with
    | none => Except.ok none
    | some img_name =>
      if img_name = "" then Except.ok none
      else
        match lookupDescriptors df img_name with
        | none => Except.ok none
        | some descriptors =>
          if first_kp_idx < (descriptors.length : ℤ) then
            match pyGet descriptors first_kp_idx with
            | some d => Except.ok (some (point.xyz, d))
            | none => Except.error ()
          else Except.ok none

/-- `build_map_database` restricted to its map-building loop: the
surviving `(xyz, descriptor)` entries in point order, or the raised
exception. -/
def build_map_database (images_data : List (ℤ × String))
    (df : List (String × List (List ℚ))) : List Point3D →
      Except Unit (List ((Fin 3 → ℚ) × List ℚ))
  | [] => Except.ok []
  | p :: rest => do
    let r ← processPoint images_data df p
    let others ← build_map_database images_data df rest
    match r with
    | none => pure others
    | some e => pure (e :: others)

/-- The loop is the per-point outcomes, keeping the appended entries. -/
theorem build_map_database_eq (images_data : List (ℤ × String))
    (df : List (String × List (List ℚ))) (ps : List Point3D) :
    build_map_database images_data df ps =
      (ps.mapM (processPoint images_data df)).map (List.filterMap id) := by
  induction ps with
  | nil => rfl
  | cons p rest ih =>
    simp only [build_map_database, List.mapM_cons, ih]
    cases hp : processPoint images_data df p with
    | error e => rfl
    | ok r =>
      cases hr : (rest.mapM (processPoint images_data df)) with
      | error e =>
        cases r <;> simp [bind, Except.bind, Except.map, pure, Except.pure]
      | ok others =>
        cases r <;> simp [bind, Except.bind, Except.map, pure, Except.pure,
          List.filterMap_cons]

/-- The per-point loop body as a function of the first track entry only
(proof device for the first-valid-observation policy). -/
def processFirst (images_data : List (ℤ × String)) (df : List (String × List (List ℚ)))
    (xyz : Fin 3 → ℚ) : Option (ℤ × ℤ) → Except Unit (Option ((Fin 3 → ℚ) × List ℚ))
  | none => Except.ok none
  | some (first_img_id, first_kp_idx) =>
    match lookupImage images_data first_img_id with
    | none => Except.ok none
    | some img_name =>
      if img_name = "" then Except.ok none
      else
        match lookupDescriptors df img_name with
        | none => Except.ok none
        | some descriptors =>
          if first_kp_idx < (descriptors.length : ℤ) then
            match pyGet descriptors first_kp_idx with
            | some d => Except.ok (some (xyz, d))
            | none => Except.error ()
          else Except.ok none

theorem processPoint_eq_first (images_data : List (ℤ × String))
    (df : List (String × List (List ℚ))) (point : Point3D) :
    processPoint images_data df point =
      processFirst images_data df point.xyz point.track.head? := by
  cases htr : point.track with
  | nil =>
    unfold processPoint processFirst
    rw [htr]
    rfl
  | cons a t =>
    obtain ⟨i, k⟩ := a
    unfold processPoint processFirst
    rw [htr]
    rfl

/-! ### Claims about the map builder -/

/-- C2 as stated is false for a negative keypoint index: `-1` is out of
bounds for a one-descriptor table, yet the guard `first_kp_idx <
len(descriptors)` passes and Python indexing appends the *last*
descriptor instead of dropping the point. -/
theorem claim_C2_counterexample :
    processPoint [(1, "a")] [("a", [[5]])] ⟨7, ![0, 0, 0], [(1, -1)]⟩ =
        Except.ok (some (![0, 0, 0], [5])) ∧
      ¬(0 ≤ (-1 : ℤ) ∧ (-1 : ℤ) < (([[5]] : List (List ℚ)).length : ℤ)) ∧
      build_map_database [(1, "a")] [("a", [[5]])] [⟨7, ![0, 0, 0], [(1, -1)]⟩] =
        Except.ok [(![0, 0, 0], [5])] := by
  refine ⟨?_, by norm_num, ?_⟩ <;>
    simp [processPoint, build_map_database, lookupImage, lookupDescriptors, pyGet,
      List.find?, bind, Except.bind, pure, Except.pure]

/-- C2 amended: only the first track entry is consulted; the point is
dropped exactly when the track is empty, the image id does not resolve
to a non-empty name, no descriptor table exists for the name, or the
keypoint index is at least the table length; a keypoint index in
`[0, len)` appends `descriptor[keypointIndex]`, one in `[-len, 0)`
appends `descriptor[len + keypointIndex]` (Python wrap-around), and one
below `-len` raises `IndexError`.  The built database keeps exactly the
appended entries. -/
theorem claim_C2_first_observation_policy (images_data : List (ℤ × String))
    (df : List (String × List (List ℚ))) (point : Point3D) :
    (∀ q : Point3D, q.xyz = point.xyz → q.track.head? = point.track.head? →
       processPoint images_data df q = processPoint images_data df point) ∧
    (point.track = [] → processPoint images_data df point = Except.ok none) ∧
    (∀ imgId kpIdx rest, point.track = (imgId, kpIdx) :: rest →
       ((lookupImage images_data imgId = none ∨ lookupImage images_data imgId = some "") →
          processPoint images_data df point = Except.ok none) ∧
       (∀ img_name, lookupImage images_data imgId = some img_name → img_name ≠ "" →
          (lookupDescriptors df img_name = none →
             processPoint images_data df point = Except.ok none) ∧
          (∀ descriptors, lookupDescriptors df img_name = some descriptors →
             ((descriptors.length : ℤ) ≤ kpIdx →
                processPoint images_data df point = Except.ok none) ∧
             (0 ≤ kpIdx → kpIdx < (descriptors.length : ℤ) →
                processPoint images_data df point =
                  Except.ok (some (point.xyz, descriptors.getD kpIdx.toNat []))) ∧
             (kpIdx < 0 → 0 ≤ (descriptors.length : ℤ) + kpIdx →
                processPoint images_data df point =
                  Except.ok (some (point.xyz,
                    descriptors.getD ((descriptors.length : ℤ) + kpIdx).toNat []))) ∧
             ((descriptors.length : ℤ) + kpIdx < 0 →
                processPoint images_data df point = Except.error ())))) ∧
    (∀ ps : List Point3D, build_map_database images_data df ps =
       (ps.mapM (processPoint images_data df)).map (List.filterMap id)) := by
  refine ⟨?_, ?_, ?_, build_map_database_eq images_data df⟩
  · intro q hxyz hhead
    rw [processPoint_eq_first, processPoint_eq_first, hxyz, hhead]
  · intro htr
    rw [processPoint_eq_first, htr]
    rfl
  · intro imgId kpIdx rest htr
    have hpf : processPoint images_data df point =
        processFirst images_data df point.xyz (some (imgId, kpIdx)) := by
      rw [processPoint_eq_first, htr]
      rfl
    constructor
    · intro hlk
      rw [hpf]
      unfold processFirst
      dsimp only
      rcases hlk with hlk | hlk
      · rw [hlk]
      · rw [hlk]
        rfl
    · intro img_name hlk hne
      rw [hpf]
      unfold processFirst
      dsimp only
      rw [hlk]
      simp only [hne, if_neg, if_false]
      constructor
      · intro hld
        rw [hld]
      · intro descriptors hld
        rw [hld]
        refine ⟨?_, ?_, ?_, ?_⟩
        · intro hge
          simp [Int.not_lt.mpr hge]
        · intro h0 hlt
          simp only [hlt, if_pos]
          have hn : kpIdx.toNat < descriptors.length := by omega
          unfold pyGet
          rw [if_pos h0]
          rw [List.get?_eq_getElem?, List.getElem?_eq_getElem hn]
          simp [List.getD_eq_getElem?_getD, List.getElem?_eq_getElem hn]
        · intro hneg hin
          have hlt : kpIdx < (descriptors.length : ℤ) := by omega
          simp only [hlt, if_pos]
          have hn : ((descriptors.length : ℤ) + kpIdx).toNat < descriptors.length := by omega
          unfold pyGet
          rw [if_neg (by omega), if_pos hin]
          rw [List.get?_eq_getElem?, List.getElem?_eq_getElem hn]
          simp [List.getD_eq_getElem?_getD, List.getElem?_eq_getElem hn]
        · intro hbelow
          have hlt : kpIdx < (descriptors.length : ℤ) := by omega
          simp only [hlt, if_pos]
          unfold pyGet
          rw [if_neg (by omega), if_neg (by omega)]

/-- C2 witness: a valid point (nonnegative in-range index) is appended
with exactly the indexed descriptor, and an index past the end drops
the point. -/
theorem claim_C2_witness :
    processPoint [(1, "a")] [("a", [[5], [7]])] ⟨3, ![1, 2, 3], [(1, 1)]⟩ =
        Except.ok (some (![1, 2, 3], [7])) ∧
      processPoint [(1, "a")] [("a", [[5], [7]])] ⟨3, ![1, 2, 3], [(1, 2)]⟩ =
        Except.ok none := by
  constructor
  · have h := (((claim_C2_first_observation_policy [(1, "a")] [("a", [[5], [7]])]
        ⟨3, ![1, 2, 3], [(1, 1)]⟩).2.2.1 1 1 [] rfl).2 "a" (by
          simp [lookupImage, List.find?]) (by simp)).2 [[5], [7]] (by
          simp [lookupDescriptors, List.find?])
    have h2 := h.2.1 (by norm_num) (by norm_num)
    simpa using h2
  · have h := (((claim_C2_first_observation_policy [(1, "a")] [("a", [[5], [7]])]
        ⟨3, ![1, 2, 3], [(1, 2)]⟩).2.2.1 1 2 [] rfl).2 "a" (by
          simp [lookupImage, List.find?]) (by simp)).2 [[5], [7]] (by
          simp [lookupDescriptors, List.find?])
    exact h.1 (by norm_num)

/-! ### Train/test split (`src/split_train_test.py`, evenly-spaced mode)

The sorted image file list and the requested test count are the inputs.
`step = total_images / num_test_images` is computed in IEEE binary64
arithmetic (Python floats), and the selected position is
`int(i * step)`; both operations round to nearest, ties to even, and
`int` truncates toward zero.  The binary64 model below works entirely
over naturals and integers so the kernel can evaluate it: a positive
rational `a / b` in the normal range is rounded to a 53-bit mantissa
`m` and a scale `s` with value `m / 2 ^ s`.  Unmodelled float corner
cases (overflow above `2 ^ 1024`, subnormals below `2 ^ (-1022)`, an
integer factor at or above `2 ^ 53`) sit far beyond any file count.
The enumeration loop assigns each file to the test subset iff its
index is in the selected set. -/

end LocSystem
